import Mathlib

/-!
Shallow embedding of `src/result_files/ascon_core.c` (Ascon-MAC with
parameters k=128, ri=256, ro=128, t=128, a=12).

Machine 64-bit words are modelled as `Nat` with explicit reduction
`% 2 ^ 64` where C overflow semantics matter; bytes are `Nat` values
below 256; byte buffers are `List Nat`.
-/

/-- All-ones 64-bit mask, used to model C bitwise complement `~` on `uint64_t`. -/
def mask64 : Nat := 2 ^ 64 - 1

/-- C bitwise complement `~x` on a `uint64_t` value: flip bits 0..63. -/
def not64 (x : Nat) : Nat := x ^^^ mask64

/-- The function `ror64` of ascon_core.c: `(x >> n) | (x << (64 - n))` on
`uint64_t`, i.e. the left shift is reduced modulo `2 ^ 64`. -/
def ror64 (x : Nat) (n : Nat) : Nat :=
  (x >>> n) ||| ((x <<< (64 - n)) % 2 ^ 64)

/-- The round-constant table `RC[12]` of ascon_core.c, indexed by round
number 0..11 (out-of-range indices, never used by the C code, give 0). -/
def RC : Nat → Nat
  | 0 => 0xf0
  | 1 => 0xe1
  | 2 => 0xd2
  | 3 => 0xc3
  | 4 => 0xb4
  | 5 => 0xa5
  | 6 => 0x96
  | 7 => 0x87
  | 8 => 0x78
  | 9 => 0x69
  | 10 => 0x5a
  | 11 => 0x4b
  | _ => 0

/-- The 320-bit Ascon state `u64 s[5]`: five 64-bit words. -/
structure AsconState where
  s0 : Nat
  s1 : Nat
  s2 : Nat
  s3 : Nat
  s4 : Nat
deriving Repr, DecidableEq

/-- One round body of `ascon_permutation` (loop iteration for round index
`i`), transcribed statement by statement from ascon_core.c: constant
addition `s[2] ^= RC[i]`, then the bit-sliced S-box, then the linear
diffusion layer.  Each C assignment becomes a `let` binding; a C statement
reading `s[j]` before its reassignment reads the earlier binding. -/
def asconRound (s : AsconState) (i : Nat) : AsconState :=
  let s2 := s.s2 ^^^ RC i
  let s0 := s.s0 ^^^ s.s4
  let s4 := s.s4 ^^^ s.s3
  let s2 := s2 ^^^ s.s1
  let s1 := s.s1
  let s3 := s.s3
  let t0 := not64 s0 &&& s1
  let t1 := not64 s1 &&& s2
  let t2 := not64 s2 &&& s3
  let t3 := not64 s3 &&& s4
  let t4 := not64 s4 &&& s0
  let s0 := s0 ^^^ t1
  let s1 := s1 ^^^ t2
  let s2 := s2 ^^^ t3
  let s3 := s3 ^^^ t4
  let s4 := s4 ^^^ t0
  let s1 := s1 ^^^ s0
  let s0 := s0 ^^^ s4
  let s3 := s3 ^^^ s2
  let s2 := not64 s2
  let s0 := s0 ^^^ ror64 s0 19 ^^^ ror64 s0 28
  let s1 := s1 ^^^ ror64 s1 61 ^^^ ror64 s1 39
  let s2 := s2 ^^^ ror64 s2 1 ^^^ ror64 s2 6
  let s3 := s3 ^^^ ror64 s3 10 ^^^ ror64 s3 17
  let s4 := s4 ^^^ ror64 s4 7 ^^^ ror64 s4 41
  ⟨s0, s1, s2, s3, s4⟩

/-- The function `ascon_permutation` of ascon_core.c: run the round body
for round indices `i` from `start = 12 - rounds` up to 11. -/
def ascon_permutation (s : AsconState) (rounds : Nat) : AsconState :=
  let start := 12 - rounds
  (List.range' start (12 - start)).foldl asconRound s

/-- The function `load64_be` of ascon_core.c, reading the 8 bytes at
offset `off` of buffer `m` as a big-endian 64-bit word. -/
def load64_be (m : List Nat) (off : Nat) : Nat :=
  (m.getD off 0) <<< 56 ||| (m.getD (off + 1) 0) <<< 48 |||
  (m.getD (off + 2) 0) <<< 40 ||| (m.getD (off + 3) 0) <<< 32 |||
  (m.getD (off + 4) 0) <<< 24 ||| (m.getD (off + 5) 0) <<< 16 |||
  (m.getD (off + 6) 0) <<< 8 ||| (m.getD (off + 7) 0)

/-- The function `store64_be` of ascon_core.c: write the 64-bit word `x`
as 8 big-endian bytes (the C cast to `uint8_t` is reduction `% 256`). -/
def store64_be (x : Nat) : List Nat :=
  [(x >>> 56) % 256, (x >>> 48) % 256, (x >>> 40) % 256, (x >>> 32) % 256,
   (x >>> 24) % 256, (x >>> 16) % 256, (x >>> 8) % 256, x % 256]

/-- The final padded block of `ascon_mac`: a 32-byte buffer that is
zero-filled (`memset(buf, 0, 32)`), receives the `rem` trailing message
bytes starting at message offset `off` (`memcpy(buf, msg + off, rem)`),
and gets the padding byte `0x80` at index `rem` (`buf[rem] = 0x80`). -/
def finalBlock (msg : List Nat) (off rem : Nat) : List Nat :=
  (List.range 32).map fun j =>
    if j < rem then msg.getD (off + j) 0 else if j = rem then 0x80 else 0

/-- The function `ascon_mac` of ascon_core.c, transcribed phase by phase:
initialization (IV, key words, two zero words, then `p^12`), absorption of
the `len / 32` complete 32-byte blocks, absorption of the single final
padded block with the domain-separation flip `s[4] ^= 1` before the last
permutation, and the squeeze of `s[0] ∥ s[1]` as the 16-byte tag. -/
def ascon_mac (key msg : List Nat) : List Nat :=
  let s : AsconState :=
    ⟨0x80808C0000000080, load64_be key 0, load64_be key 8, 0, 0⟩
  let s := ascon_permutation s 12
  let len := msg.length
  let full_blocks := len / 32
  let s := (List.range full_blocks).foldl
    (fun st i => ascon_permutation
      ⟨st.s0 ^^^ load64_be msg (i * 32), st.s1 ^^^ load64_be msg (i * 32 + 8),
       st.s2 ^^^ load64_be msg (i * 32 + 16), st.s3 ^^^ load64_be msg (i * 32 + 24),
       st.s4⟩ 12) s
  let remaining := len - full_blocks * 32
  let buf := finalBlock msg (full_blocks * 32) remaining
  let s : AsconState :=
    ⟨s.s0 ^^^ load64_be buf 0, s.s1 ^^^ load64_be buf 8,
     s.s2 ^^^ load64_be buf 16, s.s3 ^^^ load64_be buf 24, s.s4 ^^^ 1⟩
  let s := ascon_permutation s 12
  store64_be s.s0 ++ store64_be s.s1

/-! Named phases of `ascon_mac`, for stating how the monolithic function
factors.  Each mirrors the corresponding lines of ascon_core.c. -/

/-- The state built by the initialization lines of `ascon_mac` before the
first permutation call: `IV ∥ K ∥ 0 ∥ 0`. -/
def initState (key : List Nat) : AsconState :=
  ⟨0x80808C0000000080, load64_be key 0, load64_be key 8, 0, 0⟩

/-- The rate-absorption step of `ascon_mac`: XOR the four big-endian
words of a 32-byte block at offset `off` of `m` into the rate words
`s[0..3]`.  The capacity word `s[4]` is untouched. -/
def absorbBlockXor (s : AsconState) (m : List Nat) (off : Nat) : AsconState :=
  ⟨s.s0 ^^^ load64_be m off, s.s1 ^^^ load64_be m (off + 8),
   s.s2 ^^^ load64_be m (off + 16), s.s3 ^^^ load64_be m (off + 24), s.s4⟩

/-- The complete-blocks loop of `ascon_mac`: absorb and permute each of
the `len / 32` complete 32-byte blocks. -/
def absorbFullBlocks (s : AsconState) (msg : List Nat) : AsconState :=
  (List.range (msg.length / 32)).foldl
    (fun st i => ascon_permutation (absorbBlockXor st msg (i * 32)) 12) s

/-- The final-block step of `ascon_mac` before its last permutation call:
absorb the padded final block into the rate words and flip the
least-significant bit of the capacity word (`s[4] ^= 1`). -/
def preFinalState (s : AsconState) (msg : List Nat) : AsconState :=
  let full_blocks := msg.length / 32
  let buf := finalBlock msg (full_blocks * 32) (msg.length - full_blocks * 32)
  let t := absorbBlockXor s buf 0
  ⟨t.s0, t.s1, t.s2, t.s3, t.s4 ^^^ 1⟩

/-- The squeeze phase of `ascon_mac`: serialize `s[0]` then `s[1]` as
big-endian bytes, 16 bytes in all. -/
def squeezeTag (s : AsconState) : List Nat :=
  store64_be s.s0 ++ store64_be s.s1

/-- The whole of `ascon_mac` after initialization, as a function of the
state produced by the initial permutation: absorb all complete blocks,
absorb the final padded block with the domain-separation flip, run the
last permutation, squeeze the tag. -/
def macFromState (s : AsconState) (msg : List Nat) : List Nat :=
  squeezeTag (ascon_permutation (preFinalState (absorbFullBlocks s msg) msg) 12)

/-! Spec-side descriptions of the three per-round layers, written to
follow the wording of the specification (§4.1) so that the transcribed
round body can be compared against them. -/

/-- Constant addition as the specification words it: `s[2] ^= RC[i]`,
nothing else changes. -/
def constAddition (s : AsconState) (i : Nat) : AsconState :=
  ⟨s.s0, s.s1, s.s2 ^^^ RC i, s.s3, s.s4⟩

/-- The substitution layer as the specification words it: first
`s[0]^=s[4]; s[4]^=s[3]; s[2]^=s[1]` (values `a0..a4`), then the five
temporaries `t_j = (~s[j]) & s[(j+1) mod 5]` all computed from that
pre-update state, then `s[0]^=t1; s[1]^=t2; s[2]^=t3; s[3]^=t4;
s[4]^=t0` (values `b0..b4`), then `s[1]^=s[0]; s[0]^=s[4]; s[3]^=s[2];
s[2]=~s[2]`. -/
def substitutionLayer (s : AsconState) : AsconState :=
  let a0 := s.s0 ^^^ s.s4
  let a1 := s.s1
  let a2 := s.s2 ^^^ s.s1
  let a3 := s.s3
  let a4 := s.s4 ^^^ s.s3
  let t0 := not64 a0 &&& a1
  let t1 := not64 a1 &&& a2
  let t2 := not64 a2 &&& a3
  let t3 := not64 a3 &&& a4
  let t4 := not64 a4 &&& a0
  let b0 := a0 ^^^ t1
  let b1 := a1 ^^^ t2
  let b2 := a2 ^^^ t3
  let b3 := a3 ^^^ t4
  let b4 := a4 ^^^ t0
  ⟨b0 ^^^ b4, b1 ^^^ b0, not64 b2, b3 ^^^ b2, b4⟩

/-- The linear diffusion layer as the specification words it:
`s[j] ^= rotate_right(s[j], A_j) ^ rotate_right(s[j], B_j)` with the
pairs (19,28), (61,39), (1,6), (10,17), (7,41). -/
def linearLayer (s : AsconState) : AsconState :=
  ⟨s.s0 ^^^ ror64 s.s0 19 ^^^ ror64 s.s0 28,
   s.s1 ^^^ ror64 s.s1 61 ^^^ ror64 s.s1 39,
   s.s2 ^^^ ror64 s.s2 1 ^^^ ror64 s.s2 6,
   s.s3 ^^^ ror64 s.s3 10 ^^^ ror64 s.s3 17,
   s.s4 ^^^ ror64 s.s4 7 ^^^ ror64 s.s4 41⟩

/-- An instrumented copy of `ascon_mac` that additionally counts the
permutation calls made during the absorb phase (one per complete block,
plus one for the final padded block; the initialization permutation is
not counted).  It differs from `ascon_mac` only in threading the
counter. -/
def ascon_mac_counting (key msg : List Nat) : List Nat × Nat :=
  let s : AsconState :=
    ⟨0x80808C0000000080, load64_be key 0, load64_be key 8, 0, 0⟩
  let s := ascon_permutation s 12
  let len := msg.length
  let full_blocks := len / 32
  let sc := (List.range full_blocks).foldl
    (fun (p : AsconState × Nat) i =>
      (ascon_permutation (absorbBlockXor p.1 msg (i * 32)) 12, p.2 + 1))
    (s, 0)
  let remaining := len - full_blocks * 32
  let buf := finalBlock msg (full_blocks * 32) remaining
  let t := absorbBlockXor sc.1 buf 0
  let t : AsconState := ⟨t.s0, t.s1, t.s2, t.s3, t.s4 ^^^ 1⟩
  let t := ascon_permutation t 12
  (store64_be t.s0 ++ store64_be t.s1, sc.2 + 1)

/-! Helper lemmas shared by the claim theorems. -/

/-- The transcribed round body is the composition of the spec-worded
constant addition, substitution layer and linear diffusion layer. -/
lemma asconRound_decomp (s : AsconState) (i : Nat) :
    asconRound s i = linearLayer (substitutionLayer (constAddition s i)) := rfl

/-- The monolithic `ascon_mac` factors through the named phases. -/
lemma ascon_mac_factor (key msg : List Nat) :
    ascon_mac key msg = macFromState (ascon_permutation (initState key) 12) msg := rfl

/-- Threading a counter through a fold counts the list's length. -/
lemma foldl_count {α : Type} (f : α → Nat → α) (l : List Nat) (s : α) (c : Nat) :
    l.foldl (fun p i => (f p.1 i, p.2 + 1)) (s, c) = (l.foldl f s, c + l.length) := by
  induction l generalizing s c with
  | nil => simp
  | cons a t ih =>
      simp only [List.foldl_cons, List.length_cons]
      rw [ih]
      congr 1
      omega

/-- The instrumented MAC returns the tag of `ascon_mac` together with the
number of absorb-phase permutation calls, which is `len / 32 + 1`. -/
lemma counting_spec (key msg : List Nat) :
    ascon_mac_counting key msg = (ascon_mac key msg, msg.length / 32 + 1) := by
  have h := foldl_count (fun st i => ascon_permutation (absorbBlockXor st msg (i * 32)) 12)
      (List.range (msg.length / 32))
      (ascon_permutation ⟨0x80808C0000000080, load64_be key 0, load64_be key 8, 0, 0⟩ 12) 0
  simp only [List.length_range, Nat.zero_add] at h
  simp only [ascon_mac_counting, ascon_mac]
  rw [h]
  rfl

/-- Bit-level characterization of `ror64`: for an in-range word and a
rotation amount strictly between 0 and 64, bit `j` of the result is bit
`(j + n) mod 64` of the input — exact circular right rotation. -/
lemma ror64_testBit (x n j : Nat) (hx : x < 2 ^ 64) (hn0 : 0 < n) (hn : n < 64)
    (hj : j < 64) : (ror64 x n).testBit j = x.testBit ((j + n) % 64) := by
  unfold ror64
  rcases Nat.lt_or_ge (j + n) 64 with h | h
  · have hmod : (j + n) % 64 = j + n := Nat.mod_eq_of_lt h
    simp only [Nat.testBit_or, Nat.testBit_shiftRight, Nat.testBit_shiftLeft,
      Nat.testBit_mod_two_pow, hmod]
    have h2 : ¬(64 - n ≤ j) := by omega
    simp [h2, hj, Nat.add_comm n j]
  · have hmod : (j + n) % 64 = j + n - 64 := by omega
    have hbit : x.testBit (n + j) = false :=
      Nat.testBit_lt_two_pow (lt_of_lt_of_le hx (Nat.pow_le_pow_right (by norm_num) (by omega)))
    simp only [Nat.testBit_or, Nat.testBit_shiftRight, Nat.testBit_shiftLeft,
      Nat.testBit_mod_two_pow, hmod, hbit]
    have h2 : 64 - n ≤ j := by omega
    have h3 : j - (64 - n) = j + n - 64 := by omega
    simp [h2, hj, h3]

/-- The rotation primitive keeps words inside 64 bits. -/
lemma ror64_lt (x n : Nat) (hx : x < 2 ^ 64) : ror64 x n < 2 ^ 64 := by
  unfold ror64
  exact Nat.or_lt_two_pow
    (lt_of_le_of_lt (by rw [Nat.shiftRight_eq_div_pow]; exact Nat.div_le_self x (2 ^ n)) hx)
    (Nat.mod_lt _ (by norm_num))

/-- Decoding the 8 bytes written by `store64_be` in big-endian order
recovers the word: `store64_be` is exactly big-endian serialization. -/
lemma store64_be_decode (x : Nat) (hx : x < 2 ^ 64) :
    (store64_be x).getD 0 0 * 2 ^ 56 + (store64_be x).getD 1 0 * 2 ^ 48 +
    (store64_be x).getD 2 0 * 2 ^ 40 + (store64_be x).getD 3 0 * 2 ^ 32 +
    (store64_be x).getD 4 0 * 2 ^ 24 + (store64_be x).getD 5 0 * 2 ^ 16 +
    (store64_be x).getD 6 0 * 2 ^ 8 + (store64_be x).getD 7 0 = x := by
  show x >>> 56 % 256 * 2 ^ 56 + x >>> 48 % 256 * 2 ^ 48 + x >>> 40 % 256 * 2 ^ 40 +
    x >>> 32 % 256 * 2 ^ 32 + x >>> 24 % 256 * 2 ^ 24 + x >>> 16 % 256 * 2 ^ 16 +
    x >>> 8 % 256 * 2 ^ 8 + x % 256 = x
  simp only [Nat.shiftRight_eq_div_pow]
  omega

/-- The serializer always emits 8 bytes. -/
lemma store64_be_length (x : Nat) : (store64_be x).length = 8 := rfl

/-- Every emitted byte is below 256. -/
lemma store64_be_bytes_lt (x : Nat) : ∀ b ∈ store64_be x, b < 256 := by
  intro b hb
  simp only [store64_be, List.mem_cons, List.not_mem_nil, or_false] at hb
  rcases hb with h | h | h | h | h | h | h | h <;> subst h <;>
    exact Nat.mod_lt _ (by norm_num)

/-- The tag always has 16 bytes. -/
lemma ascon_mac_length (key msg : List Nat) : (ascon_mac key msg).length = 16 := by
  rw [ascon_mac_factor]
  simp [macFromState, squeezeTag, store64_be]

/-- The final padded block is always 32 bytes long. -/
lemma finalBlock_length (msg : List Nat) (off rem : Nat) :
    (finalBlock msg off rem).length = 32 := by
  simp [finalBlock]

/-- Byte `j` of the final padded block: a copied message byte below index
`rem`, the padding byte `0x80` at index `rem`, zero above it. -/
lemma finalBlock_getD (msg : List Nat) (off rem j : Nat) (hj : j < 32) :
    (finalBlock msg off rem).getD j 0 =
      if j < rem then msg.getD (off + j) 0 else if j = rem then 0x80 else 0 := by
  simp [finalBlock, List.getD_eq_getElem?_getD, List.getElem?_map, List.getElem?_range, hj]

/-- With no trailing bytes the final block is `0x80` then 31 zeros. -/
lemma finalBlock_zero_rem (msg : List Nat) (off : Nat) :
    finalBlock msg off 0 = 0x80 :: List.replicate 31 0 := by
  have h : (fun j => if j < 0 then msg.getD (off + j) 0 else if j = 0 then (0x80 : Nat) else 0)
      = fun j => if j = 0 then (0x80 : Nat) else 0 := by
    funext j
    simp
  simp only [finalBlock, h]
  decide

/-! Claim theorems. -/

/-- Claim C1: for every 16-byte key and every message, `ascon_mac` builds
its initial 5-word state as the fixed IV `0x80808C0000000080` (not the
earlier wrong constant `0x8080840000000080`), the two big-endian words of
the key, and two zero words, applies the full 12-round permutation, and
everything up to that point is a function of the key alone: the rest of
the computation receives only the resulting state. -/
theorem ascon_mac_initialization (key msg : List Nat) :
    ascon_mac key msg = macFromState (ascon_permutation (initState key) 12) msg
    ∧ initState key = ⟨0x80808C0000000080, load64_be key 0, load64_be key 8, 0, 0⟩
    ∧ (0x80808C0000000080 : Nat) ≠ 0x8080840000000080 :=
  ⟨ascon_mac_factor key msg, rfl, by norm_num⟩

/-- Claim C2: message-derived data is XORed only into the rate words
`s[0..3]` — the rate-absorption step leaves the capacity word `s[4]`
unchanged for every state, buffer and offset — and outside the
permutation the only write to `s[4]` after initialization is the single
domain-separation flip of the final-block step, which maps `s[4]` to
`s[4] ^^^ 1`; `ascon_mac` factors exactly through these steps. -/
theorem ascon_mac_capacity_isolation (key msg : List Nat) :
    ascon_mac key msg =
      squeezeTag (ascon_permutation
        (preFinalState (absorbFullBlocks (ascon_permutation (initState key) 12) msg) msg) 12)
    ∧ (∀ (s : AsconState) (m : List Nat) (off : Nat), (absorbBlockXor s m off).s4 = s.s4)
    ∧ (∀ (s : AsconState) (m : List Nat), (preFinalState s m).s4 = s.s4 ^^^ 1) :=
  ⟨ascon_mac_factor key msg, fun _ _ _ => rfl, fun _ _ => rfl⟩

/-- Claim C3: after the `len / 32` complete blocks, `ascon_mac` absorbs
exactly one final padded 32-byte block: the `len mod 32` trailing message
bytes, then the byte `0x80` at offset `len mod 32`, then zeros; when
`len` is a multiple of 32 the final block is `0x80` followed by 31
zeros.  (`len - len / 32 * 32` is how the code computes `len mod 32`.) -/
theorem ascon_mac_final_block_padding (msg : List Nat) :
    (finalBlock msg (msg.length / 32 * 32) (msg.length - msg.length / 32 * 32)).length = 32
    ∧ msg.length - msg.length / 32 * 32 < 32
    ∧ (∀ j, j < msg.length - msg.length / 32 * 32 →
        (finalBlock msg (msg.length / 32 * 32) (msg.length - msg.length / 32 * 32)).getD j 0 =
          msg.getD (msg.length / 32 * 32 + j) 0)
    ∧ (finalBlock msg (msg.length / 32 * 32) (msg.length - msg.length / 32 * 32)).getD
        (msg.length - msg.length / 32 * 32) 0 = 0x80
    ∧ (∀ j, msg.length - msg.length / 32 * 32 < j → j < 32 →
        (finalBlock msg (msg.length / 32 * 32) (msg.length - msg.length / 32 * 32)).getD j 0 = 0)
    ∧ (msg.length % 32 = 0 →
        finalBlock msg (msg.length / 32 * 32) (msg.length - msg.length / 32 * 32) =
          0x80 :: List.replicate 31 0)
    ∧ (∀ key, ascon_mac key msg = macFromState (ascon_permutation (initState key) 12) msg) := by
  refine ⟨finalBlock_length _ _ _, by omega, ?_, ?_, ?_, ?_, fun key => ascon_mac_factor key msg⟩
  · intro j hj
    rw [finalBlock_getD _ _ _ j (by omega)]
    simp [hj]
  · rw [finalBlock_getD _ _ _ _ (by omega)]
    simp
  · intro j h1 h2
    rw [finalBlock_getD _ _ _ j h2]
    have hne1 : ¬j < msg.length - msg.length / 32 * 32 := by omega
    have hne2 : j ≠ msg.length - msg.length / 32 * 32 := by omega
    simp [hne1, hne2]
  · intro h0
    have hz : msg.length - msg.length / 32 * 32 = 0 := by omega
    rw [hz, finalBlock_zero_rem]

/-- Witness for claim C3, at the concrete messages `[1, 2, 3]` (three
trailing bytes) and `[]` (block-aligned length). -/
theorem ascon_mac_final_block_padding_witness :
    (0 < [1, 2, 3].length - [1, 2, 3].length / 32 * 32
      ∧ (finalBlock [1, 2, 3] ([1, 2, 3].length / 32 * 32)
          ([1, 2, 3].length - [1, 2, 3].length / 32 * 32)).getD 0 0 =
        [1, 2, 3].getD ([1, 2, 3].length / 32 * 32 + 0) 0)
    ∧ ((List.length ([] : List Nat)) % 32 = 0
      ∧ finalBlock ([] : List Nat) ((List.length ([] : List Nat)) / 32 * 32)
          ((List.length ([] : List Nat)) - (List.length ([] : List Nat)) / 32 * 32) =
        0x80 :: List.replicate 31 0) :=
  ⟨⟨by decide, (ascon_mac_final_block_padding [1, 2, 3]).2.2.1 0 (by decide)⟩,
   ⟨by decide, (ascon_mac_final_block_padding ([] : List Nat)).2.2.2.2.2.1 (by decide)⟩⟩

/-- Claim C4: each round of the permutation is the constant addition,
then the substitution layer with all five temporaries
`t_j = (~s[j]) & s[(j+1) mod 5]` computed from the pre-update state
(after the three leading XORs, before any `t`-XOR is applied), then the
trailing XOR/complement sequence, exactly in the order the specification
gives (see `substitutionLayer`), then the linear diffusion layer. -/
theorem ascon_round_substitution_order (s : AsconState) (i : Nat) :
    asconRound s i = linearLayer (substitutionLayer (constAddition s i)) :=
  asconRound_decomp s i

/-- Claim C5: each round ends with the linear diffusion layer
`s[j] ^= ror64(s[j], A_j) ^ ror64(s[j], B_j)` with pairs (19,28),
(61,39), (1,6), (10,17), (7,41) (see `linearLayer`), and `ror64` is
exact circular right rotation on 64-bit words: bit `j` of `ror64 x n` is
bit `(j + n) mod 64` of `x`, and the result stays below `2 ^ 64`. -/
theorem ascon_linear_diffusion_layer :
    (∀ (s : AsconState) (i : Nat),
        asconRound s i = linearLayer (substitutionLayer (constAddition s i)))
    ∧ (∀ x n j, x < 2 ^ 64 → 0 < n → n < 64 → j < 64 →
        (ror64 x n).testBit j = x.testBit ((j + n) % 64))
    ∧ (∀ x n, x < 2 ^ 64 → ror64 x n < 2 ^ 64) :=
  ⟨asconRound_decomp, ror64_testBit, ror64_lt⟩

/-- Witness for claim C5: the rotation characterization evaluated at a
concrete word, amount and bit position. -/
theorem ascon_linear_diffusion_layer_witness :
    (ror64 0x0123456789ABCDEF 19).testBit 0 =
      (0x0123456789ABCDEF : Nat).testBit ((0 + 19) % 64) :=
  ascon_linear_diffusion_layer.2.1 0x0123456789ABCDEF 19 0
    (by norm_num) (by norm_num) (by norm_num) (by norm_num)

/-- Claim C6: for `0 < rounds ≤ 12` the permutation runs the round body
over exactly the last `rounds` indices of `0..11` — the window from
`12 - rounds` to `11`, of length `rounds` — and each round body starts
with the constant addition `s[2] ^= RC[i]` before the substitution and
diffusion layers. -/
theorem ascon_permutation_round_window (s : AsconState) (rounds : Nat)
    (h1 : 0 < rounds) (h2 : rounds ≤ 12) :
    ascon_permutation s rounds = ((List.range 12).drop (12 - rounds)).foldl asconRound s
    ∧ (List.range 12).drop (12 - rounds) = List.range' (12 - rounds) rounds
    ∧ ((List.range 12).drop (12 - rounds)).length = rounds
    ∧ (∀ (t : AsconState) (i : Nat),
        asconRound t i = linearLayer (substitutionLayer (constAddition t i))) := by
  interval_cases rounds <;> exact ⟨rfl, by decide, by decide, asconRound_decomp⟩

/-- Witness for claim C6, at the full 12 rounds on a concrete state. -/
theorem ascon_permutation_round_window_witness :
    ascon_permutation ⟨0, 1, 2, 3, 4⟩ 12 =
      ((List.range 12).drop (12 - 12)).foldl asconRound ⟨0, 1, 2, 3, 4⟩
    ∧ (List.range 12).drop (12 - 12) = List.range' (12 - 12) 12
    ∧ ((List.range 12).drop (12 - 12)).length = 12
    ∧ (∀ (t : AsconState) (i : Nat),
        asconRound t i = linearLayer (substitutionLayer (constAddition t i))) :=
  ascon_permutation_round_window ⟨0, 1, 2, 3, 4⟩ 12 (by norm_num) (by norm_num)

/-- Claim C7: the tag is the big-endian serialization of `s[0]` then
`s[1]` of the state produced by the last absorb-phase permutation, with
no further permutation call; the output always has exactly 16 bytes,
`store64_be` always emits 8 bytes below 256, and decoding them
big-endian recovers the word. -/
theorem ascon_mac_squeeze_phase (key msg : List Nat) :
    ascon_mac key msg =
      squeezeTag (ascon_permutation
        (preFinalState (absorbFullBlocks (ascon_permutation (initState key) 12) msg) msg) 12)
    ∧ (ascon_mac key msg).length = 16
    ∧ (∀ x, (store64_be x).length = 8)
    ∧ (∀ x, ∀ b ∈ store64_be x, b < 256)
    ∧ (∀ x, x < 2 ^ 64 →
        (store64_be x).getD 0 0 * 2 ^ 56 + (store64_be x).getD 1 0 * 2 ^ 48 +
        (store64_be x).getD 2 0 * 2 ^ 40 + (store64_be x).getD 3 0 * 2 ^ 32 +
        (store64_be x).getD 4 0 * 2 ^ 24 + (store64_be x).getD 5 0 * 2 ^ 16 +
        (store64_be x).getD 6 0 * 2 ^ 8 + (store64_be x).getD 7 0 = x) :=
  ⟨ascon_mac_factor key msg, ascon_mac_length key msg, store64_be_length,
   store64_be_bytes_lt, store64_be_decode⟩

/-- Witness for claim C7: big-endian decoding of the serialized bytes of
a concrete word recovers it. -/
theorem ascon_mac_squeeze_phase_witness :
    (store64_be 0x0123456789ABCDEF).getD 0 0 * 2 ^ 56 +
    (store64_be 0x0123456789ABCDEF).getD 1 0 * 2 ^ 48 +
    (store64_be 0x0123456789ABCDEF).getD 2 0 * 2 ^ 40 +
    (store64_be 0x0123456789ABCDEF).getD 3 0 * 2 ^ 32 +
    (store64_be 0x0123456789ABCDEF).getD 4 0 * 2 ^ 24 +
    (store64_be 0x0123456789ABCDEF).getD 5 0 * 2 ^ 16 +
    (store64_be 0x0123456789ABCDEF).getD 6 0 * 2 ^ 8 +
    (store64_be 0x0123456789ABCDEF).getD 7 0 = 0x0123456789ABCDEF :=
  (ascon_mac_squeeze_phase [] []).2.2.2.2 0x0123456789ABCDEF (by norm_num)

/-- Claim C8: the absorb phase makes exactly `len / 32 + 1` permutation
calls — one per complete block plus one for the mandatory final padded
block — as witnessed by the instrumented copy of the function, and that
count equals `ceil((len + 1) / 32)`; the state type is five 64-bit words
throughout, independent of `len`. -/
theorem ascon_mac_absorb_count (key msg : List Nat) :
    (ascon_mac_counting key msg).1 = ascon_mac key msg
    ∧ (ascon_mac_counting key msg).2 = msg.length / 32 + 1
    ∧ msg.length / 32 + 1 = (msg.length + 1 + 31) / 32 := by
  have h := counting_spec key msg
  exact ⟨by rw [h], by rw [h], by omega⟩

/-- Claim C9: `ascon_mac` is a pure function of `(key, msg)`: any two
tags computed from the same inputs are bit-identical.  (In this
embedding the inputs are immutable values, matching the C function's
read-only access to `key` and `msg`.) -/
theorem ascon_mac_deterministic (key msg t1 t2 : List Nat)
    (h1 : t1 = ascon_mac key msg) (h2 : t2 = ascon_mac key msg) : t1 = t2 :=
  h1.trans h2.symm

/-- Witness for claim C9: two computations of the tag of the empty
message under the all-zero key coincide. -/
theorem ascon_mac_deterministic_witness :
    ascon_mac (List.replicate 16 0) [] = ascon_mac (List.replicate 16 0) [] :=
  ascon_mac_deterministic (List.replicate 16 0) []
    (ascon_mac (List.replicate 16 0) []) (ascon_mac (List.replicate 16 0) []) rfl rfl

/-- Claim C10: calling the permutation with `rounds = 0` is the
identity: the loop from `12 - 0 = 12` to `11` runs zero iterations. -/
theorem ascon_permutation_zero_rounds (s : AsconState) :
    ascon_permutation s 0 = s := rfl
